import Mathlib

/-
Verification of the speech-playback engine of the notes-app PWA
(src/services/audio.ts).

Modelling conventions:
* JavaScript strings are modelled as `List Char`; character counts as `Nat`;
  the floating-point progress / percent arithmetic as exact rationals `ℚ`.
* The two regular expressions used by `play` for segmentation
  (`/[^.?!]+[.?!]+[\])'"]*|[^.?!]+$/g` and `/.{1,200}(?:\s|$)/g`) are embedded
  as recursive matchers that reproduce the greedy/backtracking behaviour of
  the JavaScript engine, including the one-position advance on a failed match.
* The mutable `AudioService` object is a record; every public method and
  every asynchronous callback (`onend`, `onerror`, `onboundary`, the
  `setTimeout` continuations) is a pure function from the record to the
  record, additionally emitting the externally visible speech actions
  (`SpeechSynthesis.cancel`, `SpeechSynthesis.speak`, `setTimeout`).
  All methods are total functions, which models the fact that the source
  never throws from its public operations.
* The silent ambient `<audio>` element, the MediaSession surface and the
  observer list only mirror `this.state`; subscribers always receive
  `{ ...this.state }`, so the published state is the `state` field.
-/

namespace Folio

/-- JavaScript `\s` (the whitespace class used by `trim` and the chunking
regex), decided by code point. -/
def isWs (c : Char) : Bool :=
  Nat.ble c.toNat 13 && Nat.ble 9 c.toNat ||
  c.toNat == 32 || c.toNat == 160 || c.toNat == 0x1680 ||
  (Nat.ble 0x2000 c.toNat && Nat.ble c.toNat 0x200a) ||
  c.toNat == 0x2028 || c.toNat == 0x2029 || c.toNat == 0x202f ||
  c.toNat == 0x205f || c.toNat == 0x3000 || c.toNat == 0xfeff

/-- JavaScript regex `.`: any character other than a line terminator. -/
def isDot (c : Char) : Bool :=
  !(c.toNat == 10 || c.toNat == 13 || c.toNat == 0x2028 || c.toNat == 0x2029)

/-- The sentence-terminal class `[.?!]`. -/
def isTerminal (c : Char) : Bool := c == '.' || c == '?' || c == '!'

/-- The closing bracket/quote class. Code point 39 is the apostrophe. -/
def isCloser (c : Char) : Bool :=
  c == ']' || c == ')' || c.toNat == 39 || c == '"'

/-- JavaScript `String.prototype.trim`. -/
def trimChars (cs : List Char) : List Char :=
  ((cs.dropWhile isWs).reverse.dropWhile isWs).reverse

/-- One attempt of the greedy, backtracking regex `.{1,200}(?:\s|$)` at the
current position. `n` is the candidate length of the `.{1,n}` part still to
try (starting from 200 and backtracking downwards). A successful match
returns the matched chunk (including the whitespace character consumed by
`\s`, exactly as the JavaScript engine does) and the rest of the input. -/
def chunkTry : Nat → List Char → Option (List Char × List Char)
  | 0, _ => none
  | n+1, cs =>
    if n + 1 ≤ cs.length ∧ (cs.take (n+1)).all isDot = true then
      if cs.length = n + 1 then some (cs, [])
      else
        match cs.drop (n+1) with
        | [] => some (cs, [])
        | d :: rest => if isWs d then some (cs.take (n+1) ++ [d], rest) else chunkTry n cs
    else chunkTry n cs

/-- The scan loop of `String.match` with `/.{1,200}(?:\s|$)/g`: try a match
at the current position; on failure advance one character (the JavaScript
engine silently skips unmatched characters). Each step consumes at least one
character, so fuel equal to the input length is sufficient. -/
def chunkGo : Nat → List Char → List (List Char)
  | 0, _ => []
  | _+1, [] => []
  | fuel+1, c :: rest =>
    match chunkTry 200 (c :: rest) with
    | some (m, r) => m :: chunkGo fuel r
    | none => chunkGo fuel rest

/-- All matches of `/.{1,200}(?:\s|$)/g` against `cs`. -/
def chunkScan (cs : List Char) : List (List Char) := chunkGo cs.length cs

/-- The scan loop of `String.match` with `/[^.?!]+[.?!]+[\])'"]*|[^.?!]+$/g`.
The first alternative is deterministic because `[^.?!]` and `[.?!]` are
disjoint: a maximal run of non-terminals, at least one terminal, then any
closers. The second alternative matches only when the non-terminal run
reaches the end of the input. A leading terminal character matches neither
alternative and is skipped. Fuel equal to the input length is sufficient
because each step consumes at least one character. -/
def msGo : Nat → List Char → List (List Char)
  | 0, _ => []
  | _+1, [] => []
  | fuel+1, c :: rest =>
    if isTerminal c then msGo fuel rest
    else
      let pre := (c :: rest).takeWhile (fun x => !(isTerminal x))
      let r1 := (c :: rest).dropWhile (fun x => !(isTerminal x))
      if r1 = [] then [pre]
      else
        let terms := r1.takeWhile isTerminal
        let r2 := r1.dropWhile isTerminal
        let closers := r2.takeWhile isCloser
        let r3 := r2.dropWhile isCloser
        (pre ++ terms ++ closers) :: msGo fuel r3

/-- All matches of the sentence regex against `cs`. -/
def matchSentences (cs : List Char) : List (List Char) := msGo cs.length cs

/-- The body of the `sentences.forEach` loop in `play` for one sentence:
trim, drop if empty, further split into parts when longer than 200
characters (`trimmed.match(/.{1,200}(?:\s|$)/g) || [trimmed]`). -/
def segUnit (sent : List Char) : List (List Char) :=
  let trimmed := trimChars sent
  if trimmed = [] then []
  else if 200 < trimmed.length then
    let parts := chunkScan trimmed
    if parts = [] then [trimmed] else parts
  else [trimmed]

/-- The full segmentation performed by `play` (audio.ts lines 157-173):
`text.match(sentenceRegex) || [text]`, then the `forEach` push loop. -/
def segmentText (text : List Char) : List (List Char) :=
  let ms := matchSentences text
  let sentences := if ms = [] then [text] else ms
  sentences.foldr (fun sent acc => segUnit sent ++ acc) []

/-- Externally visible effects of an operation, in order of issue:
`Action.cancel` is `synth.cancel()`, `Action.speak t` is
`synth.speak(new SpeechSynthesisUtterance(t))`, and `Action.schedule d`
is `setTimeout(() => this.speakNextChunk(0), d)`. -/
inductive Action where
  | cancel : Action
  | speak : List Char → Action
  | schedule : Nat → Action
deriving DecidableEq, Repr

/-- The snapshot published to subscribers (the `AudioState` type of the
source). -/
structure AudioState where
  isPlaying : Bool
  title : String
  author : String
  coverColor : String
  volume : ℚ
  hasContent : Bool
  progress : ℚ
  currentSegment : Nat
  totalSegments : Nat
deriving DecidableEq, Repr

/-- The private fields of the `AudioService` class that the claims are
about. `synth`, `audio`, `currentUtterance`, `playPromise` and `listeners`
are handles to external resources and carry no session state; they are
modelled by the `Action` trace instead. -/
structure AudioService where
  isPlaying : Bool
  queue : List (List Char)
  currentTextIndex : Nat
  resumeCharIndex : Nat
  queueLengths : List Nat
  totalLength : Nat
  state : AudioState
deriving DecidableEq, Repr

/-- The initial `this.state` of the constructor. -/
def initState : AudioState :=
  { isPlaying := false, title := "", author := "", coverColor := "bg-stone-200"
    volume := 1, hasContent := false, progress := 0, currentSegment := 0
    totalSegments := 0 }

/-- The `AudioService` right after construction. -/
def initService : AudioService :=
  { isPlaying := false, queue := [], currentTextIndex := 0, resumeCharIndex := 0
    queueLengths := [], totalLength := 0, state := initState }

/-- `updateProgressState` (audio.ts lines 68-87): recompute the progress
percentage from the cumulative position and publish a fresh snapshot.
The `for` loop summing `queueLengths[i] || 0` for `i < currentTextIndex`
is the sum of `queueLengths.take currentTextIndex`. -/
def updateProgressState (s : AudioService) : AudioService :=
  let currentPos : Nat := (s.queueLengths.take s.currentTextIndex).sum + s.resumeCharIndex
  let pct : ℚ := if 0 < s.totalLength then ((currentPos : ℚ) / (s.totalLength : ℚ)) * 100 else 0
  { s with state := { s.state with
      isPlaying := s.isPlaying
      currentSegment := s.currentTextIndex + 1
      totalSegments := s.queue.length
      progress := pct } }

/-- `stop` (audio.ts lines 324-350): reset every session field, publish the
idle snapshot, cancel speech. -/
def stopOp (s : AudioService) : AudioService × List Action :=
  ({ isPlaying := false
     queue := []
     currentTextIndex := 0
     resumeCharIndex := 0
     queueLengths := []
     totalLength := 0
     state := { s.state with
       isPlaying := false, hasContent := false, progress := 0
       currentSegment := 0, totalSegments := 0 } },
   [Action.cancel])

/-- `speakNextChunk(offset)` (audio.ts lines 231-297), synchronous part.
Returns early when not playing; tears the session down at the end of the
queue; otherwise publishes progress, cancels outstanding speech and either
speaks `originalText.substring(offset)` or, when that is whitespace-only,
skips the chunk and schedules the next one. -/
def speakNextChunk (s : AudioService) (offset : Nat) : AudioService × List Action :=
  if s.isPlaying = false then (s, [])
  else if s.queue.length ≤ s.currentTextIndex then stopOp s
  else
    let s1 := updateProgressState s
    let originalText := s1.queue.getD s1.currentTextIndex []
    let textToSpeak := if 0 < offset then originalText.drop offset else originalText
    if trimChars textToSpeak = [] then
      ({ s1 with currentTextIndex := s1.currentTextIndex + 1, resumeCharIndex := 0 },
       [Action.cancel, Action.schedule 0])
    else
      (s1, [Action.cancel, Action.speak textToSpeak])

/-- `pause` (audio.ts lines 299-308). -/
def pauseOp (s : AudioService) : AudioService × List Action :=
  ({ s with isPlaying := false, state := { s.state with isPlaying := false } },
   [Action.cancel])

/-- `resume` (audio.ts lines 310-322). -/
def resumeOp (s : AudioService) : AudioService × List Action :=
  if s.isPlaying = false ∧ 0 < s.queue.length then
    let s1 : AudioService :=
      { s with isPlaying := true, state := { s.state with isPlaying := true } }
    speakNextChunk s1 s.resumeCharIndex
  else (s, [])

/-- The index selected by `nextChunk` (audio.ts lines 354-356):
`currentTextIndex + 1`, wrapped to 0 when it reaches the queue length. -/
def nextIndex (s : AudioService) : Nat :=
  if s.queue.length ≤ s.currentTextIndex + 1 then 0 else s.currentTextIndex + 1

/-- `nextChunk` (audio.ts lines 352-358): cancel, advance, wrap past the
end to segment 0, speak from offset 0. -/
def nextChunkOp (s : AudioService) : AudioService × List Action :=
  let r := speakNextChunk { s with currentTextIndex := nextIndex s, resumeCharIndex := 0 } 0
  (r.1, Action.cancel :: r.2)

/-- `prevChunk` (audio.ts lines 360-365): cancel, `max(0, idx - 1)`
(truncated `Nat` subtraction), speak from offset 0. -/
def prevChunkOp (s : AudioService) : AudioService × List Action :=
  let r := speakNextChunk
    { s with currentTextIndex := s.currentTextIndex - 1, resumeCharIndex := 0 } 0
  (r.1, Action.cancel :: r.2)

/-- The `utterance.onend` callback (audio.ts lines 271-279). -/
def onEndOp (s : AudioService) : AudioService × List Action :=
  if s.isPlaying = true then
    ({ s with currentTextIndex := s.currentTextIndex + 1, resumeCharIndex := 0 },
     [Action.schedule 0])
  else (s, [])

/-- The `utterance.onerror` callback (audio.ts lines 281-288): advance and
reschedule after 100 ms unless the error is the engine's own interruption. -/
def onErrorOp (s : AudioService) (err : String) : AudioService × List Action :=
  if s.isPlaying = true ∧ err ≠ "interrupted" then
    ({ s with currentTextIndex := s.currentTextIndex + 1, resumeCharIndex := 0 },
     [Action.schedule 100])
  else (s, [])

/-- The `utterance.onboundary` callback (audio.ts lines 262-269) for a word
boundary: store the absolute character index `offset + e.charIndex` of the
word being spoken. Progress is *not* republished here (the call is
commented out in the source). -/
def onBoundaryOp (s : AudioService) (k : Nat) : AudioService :=
  { s with resumeCharIndex := k }

/-- `setVolume` (audio.ts lines 89-96). -/
def setVolumeOp (s : AudioService) (v : ℚ) : AudioService :=
  { s with state := { s.state with volume := max 0 (min 1 v) } }

/-- The `for` loop of `seek` (audio.ts lines 378-386): find the first
segment whose cumulative range contains `target`; the returned offset is
`Math.floor(targetChar - acc)`. Returns `none` when the loop runs off the
end without breaking. -/
def seekFind : List Nat → ℚ → Nat → Option (Nat × Nat)
  | [], _, _ => none
  | len :: rest, target, acc =>
    if target < ((acc + len : Nat) : ℚ) then
      some (0, Nat.floor (target - (acc : ℚ)))
    else (seekFind rest target (acc + len)).map (fun p => (p.1 + 1, p.2))

/-- The `(foundIndex, foundOffset)` pair computed by `seek`, including the
`acc >= targetChar && foundIndex === 0 && acc > 0` end-of-text edge case
(which can only fire when the loop completed without breaking, since a
break at `i = 0` leaves `acc = 0` and a later break leaves
`foundIndex ≠ 0`). -/
def seekDest (lens : List Nat) (target : ℚ) : Nat × Nat :=
  match seekFind lens target 0 with
  | some (i, o) => (i, o)
  | none =>
    if target ≤ ((lens.sum : Nat) : ℚ) ∧ 0 < lens.sum then (lens.length - 1, 0)
    else (0, 0)

/-- `seek(percent)` (audio.ts lines 367-404). -/
def seekOp (s : AudioService) (percent : ℚ) : AudioService × List Action :=
  if s.totalLength = 0 ∨ s.queue.length = 0 then (s, [])
  else
    let target : ℚ := (max 0 (min 100 percent)) / 100 * (s.totalLength : ℚ)
    let d := seekDest s.queueLengths target
    let s1 := { s with currentTextIndex := d.1, resumeCharIndex := d.2 }
    let s2 := updateProgressState s1
    if s2.isPlaying = true then
      let r := speakNextChunk s2 d.2
      (r.1, Action.cancel :: r.2)
    else (s2, [])

/-- `play(text, title, author, coverColor)` (audio.ts lines 149-229): stop
the previous session, bail out on whitespace-only text, segment, reset the
position, publish, speak segment 0 from offset 0. The ambient-audio and
MediaSession calls touch no session state and are omitted from the trace. -/
def playOp (s : AudioService) (text : List Char) (title author coverColor : String) :
    AudioService × List Action :=
  let s0 := (stopOp s).1
  if trimChars text = [] then (s0, (stopOp s).2)
  else
    let queue := segmentText text
    let lens := queue.map List.length
    let s2 : AudioService :=
      { isPlaying := true
        queue := queue
        currentTextIndex := 0
        resumeCharIndex := 0
        queueLengths := lens
        totalLength := lens.sum
        state := { s0.state with
          isPlaying := true, title := title, author := author
          coverColor := coverColor, hasContent := true, progress := 0
          currentSegment := 0, totalSegments := queue.length } }
    let s3 := updateProgressState s2
    let r := speakNextChunk s3 0
    (r.1, (stopOp s).2 ++ r.2)

/-- The cumulative character position of the current playback point. -/
def currentPos (s : AudioService) : Nat :=
  (s.queueLengths.take s.currentTextIndex).sum + s.resumeCharIndex

/-- The progress formula of the specification:
`100 * (sum(segmentLengths[0..currentSegmentIndex)) + resumeOffset) / totalLength`,
defined as `0` when `totalLength = 0`. -/
def pctFormula (s : AudioService) : ℚ :=
  if s.totalLength = 0 then 0 else 100 * ((currentPos s : ℚ)) / (s.totalLength : ℚ)

/-- An idle engine: no session, nothing playing, idle snapshot published. -/
def IdleState (s : AudioService) : Prop :=
  s.isPlaying = false ∧ s.queue = [] ∧ s.currentTextIndex = 0 ∧
  s.resumeCharIndex = 0 ∧ s.queueLengths = [] ∧ s.totalLength = 0 ∧
  s.state.isPlaying = false ∧ s.state.hasContent = false ∧
  s.state.progress = 0 ∧ s.state.currentSegment = 0 ∧ s.state.totalSegments = 0

/-- One transition of the engine: a public method call or an asynchronous
callback. A word-boundary event can only fire while an utterance for the
current segment is outstanding; its reported `charIndex` is the start of a
word inside the spoken substring, so the absolute index lies inside the
current segment and addresses a non-whitespace character. -/
inductive Step : AudioService → AudioService → Prop where
  | play (s : AudioService) (text : List Char) (ti au co : String) :
      Step s (playOp s text ti au co).1
  | pause (s : AudioService) : Step s (pauseOp s).1
  | resume (s : AudioService) : Step s (resumeOp s).1
  | stop (s : AudioService) : Step s (stopOp s).1
  | next (s : AudioService) : Step s (nextChunkOp s).1
  | prev (s : AudioService) : Step s (prevChunkOp s).1
  | seek (s : AudioService) (p : ℚ) : Step s (seekOp s p).1
  | speakCont (s : AudioService) : Step s (speakNextChunk s 0).1
  | onEnd (s : AudioService) : Step s (onEndOp s).1
  | onError (s : AudioService) (err : String) : Step s (onErrorOp s err).1
  | onBoundary (s : AudioService) (k : Nat)
      (h1 : s.currentTextIndex < s.queue.length)
      (h2 : k < (s.queue.getD s.currentTextIndex []).length)
      (h3 : isWs ((s.queue.getD s.currentTextIndex []).getD k ' ') = false) :
      Step s (onBoundaryOp s k)
  | setVolume (s : AudioService) (v : ℚ) : Step s (setVolumeOp s v)

/-- States reachable from the freshly constructed service. -/
inductive Reachable : AudioService → Prop where
  | init : Reachable initService
  | step {s s' : AudioService} : Reachable s → Step s s' → Reachable s'

/-- The data invariant of a session: the length table matches the queue,
the total matches the table, the cumulative position never exceeds the
total, and the published progress is within `[0,100]` (and `0` for an
empty session). -/
structure Inv (s : AudioService) : Prop where
  lens_eq : s.queueLengths = s.queue.map List.length
  total_eq : s.totalLength = s.queueLengths.sum
  pos_le : currentPos s ≤ s.totalLength
  prog_nonneg : 0 ≤ s.state.progress
  prog_le : s.state.progress ≤ 100
  prog_zero : s.totalLength = 0 → s.state.progress = 0

/-- "ab cd": a five-character text giving one segment of length 5. -/
def txtAB : List Char := ['a', 'b', ' ', 'c', 'd']

/-- The engine right after `play("ab cd", "T", "A", "c")`. -/
def sPlayAB : AudioService := (playOp initService txtAB "T" "A" "c").1

/-- `sPlayAB` after a word-boundary event at absolute index 3 (the start of
the word "cd"). -/
def sBound : AudioService := onBoundaryOp sPlayAB 3

/-- "aaaa. bbbb.": two sentences, two segments of length 5 each. -/
def txt2 : List Char := "aaaa. bbbb.".data

/-- The engine right after `play("aaaa. bbbb.", "T", "A", "c")`. -/
def sPlay2 : AudioService := (playOp initService txt2 "T" "A" "c").1

/-- `sPlay2` paused. -/
def sPaused2 : AudioService := (pauseOp sPlay2).1

/-- `sPlay2` after one `nextChunk()`: positioned at the last segment. -/
def sNext2 : AudioService := (nextChunkOp sPlay2).1

/-- A 500-character, punctuation-free text whose whitespace sits exactly at
the chunking marks: 199 letters, a space, 199 letters, a space, 100
letters. -/
def cex4good : List Char :=
  List.replicate 199 'a' ++ [' '] ++ List.replicate 199 'b' ++ [' '] ++
  List.replicate 100 'c'

/-- A 500-character, punctuation-free text whose first whitespace sits at
position 200: 200 letters, a space, 199 letters, a space, 99 letters. -/
def cex4bad : List Char :=
  List.replicate 200 'a' ++ [' '] ++ List.replicate 199 'b' ++ [' '] ++
  List.replicate 99 'c'

/-! ### Basic lemmas about the embedded operations -/

theorem sum_take_le (l : List ℕ) : ∀ n : ℕ, (l.take n).sum ≤ l.sum := by
  induction l with
  | nil => intro n; simp
  | cons a t ih =>
    intro n
    cases n with
    | zero => simp
    | succ m =>
      simp only [List.take_succ_cons, List.sum_cons]
      exact Nat.add_le_add_left (ih m) a

theorem sum_take_succ_getD (l : List ℕ) : ∀ j : ℕ, j < l.length →
    (l.take (j+1)).sum = (l.take j).sum + l.getD j 0 := by
  induction l with
  | nil => intro j h; simp at h
  | cons a t ih =>
    intro j h
    cases j with
    | zero => simp
    | succ m =>
      simp only [List.take_succ_cons, List.sum_cons, List.getD_cons_succ]
      have := ih m (by simpa using h)
      omega

theorem getD_map_length (l : List (List Char)) : ∀ i : ℕ, i < l.length →
    (l.map List.length).getD i 0 = (l.getD i []).length := by
  induction l with
  | nil => intro i h; simp at h
  | cons a t ih =>
    intro i h
    cases i with
    | zero => simp
    | succ m => simpa using ih m (by simpa using h)

theorem trimChars_eq_nil_of_all_ws (cs : List Char) (h : cs.all isWs = true) :
    trimChars cs = [] := by
  have h1 : cs.dropWhile isWs = [] := by
    rw [List.dropWhile_eq_nil_iff]
    intro x hx
    exact (List.all_eq_true.mp h) x hx
  simp [trimChars, h1]

@[simp] theorem updateProgress_isPlaying (s : AudioService) :
    (updateProgressState s).isPlaying = s.isPlaying := rfl

@[simp] theorem updateProgress_queue (s : AudioService) :
    (updateProgressState s).queue = s.queue := rfl

@[simp] theorem updateProgress_idx (s : AudioService) :
    (updateProgressState s).currentTextIndex = s.currentTextIndex := rfl

@[simp] theorem updateProgress_resume (s : AudioService) :
    (updateProgressState s).resumeCharIndex = s.resumeCharIndex := rfl

@[simp] theorem updateProgress_lens (s : AudioService) :
    (updateProgressState s).queueLengths = s.queueLengths := rfl

@[simp] theorem updateProgress_total (s : AudioService) :
    (updateProgressState s).totalLength = s.totalLength := rfl

theorem updateProgress_progress (s : AudioService) :
    (updateProgressState s).state.progress =
      if 0 < s.totalLength then ((currentPos s : ℚ) / (s.totalLength : ℚ)) * 100 else 0 := rfl

theorem textToSpeak_eq (l : List Char) (k : ℕ) :
    (if 0 < k then l.drop k else l) = l.drop k := by
  cases k with
  | zero => simp
  | succ m => simp

theorem speakNextChunk_not_playing (s : AudioService) (k : ℕ)
    (h : s.isPlaying = false) : speakNextChunk s k = (s, []) := by
  simp [speakNextChunk, h]

theorem speakNextChunk_speaks (s : AudioService) (k : ℕ)
    (hp : s.isPlaying = true) (hidx : s.currentTextIndex < s.queue.length)
    (ht : trimChars ((s.queue.getD s.currentTextIndex []).drop k) ≠ []) :
    speakNextChunk s k =
      (updateProgressState s,
       [Action.cancel, Action.speak ((s.queue.getD s.currentTextIndex []).drop k)]) := by
  have h2 : ¬(s.queue.length ≤ s.currentTextIndex) := Nat.not_le.mpr hidx
  simp only [List.getD_eq_getElem?_getD] at ht
  simp [speakNextChunk, hp, h2, textToSpeak_eq, ht]

theorem speakNextChunk_skips (s : AudioService) (k : ℕ)
    (hp : s.isPlaying = true) (hidx : s.currentTextIndex < s.queue.length)
    (ht : trimChars ((s.queue.getD s.currentTextIndex []).drop k) = []) :
    (speakNextChunk s k).1 =
      { updateProgressState s with
        currentTextIndex := s.currentTextIndex + 1, resumeCharIndex := 0 } := by
  have h2 : ¬(s.queue.length ≤ s.currentTextIndex) := Nat.not_le.mpr hidx
  simp only [List.getD_eq_getElem?_getD] at ht
  simp [speakNextChunk, hp, h2, textToSpeak_eq, ht]

/-! ### The `seek` search loop -/

theorem seekFind_some (lens : List ℕ) : ∀ (target : ℚ) (acc j o : ℕ),
    (acc : ℚ) ≤ target → seekFind lens target acc = some (j, o) →
    j < lens.length ∧
    (((acc + (lens.take j).sum : ℕ) : ℚ) ≤ target ∧
      target < ((acc + (lens.take (j+1)).sum : ℕ) : ℚ)) ∧
    o = Nat.floor (target - ((acc + (lens.take j).sum : ℕ) : ℚ)) := by
  induction lens with
  | nil => intro target acc j o hacc he; simp [seekFind] at he
  | cons len rest ih =>
    intro target acc j o hacc he
    simp only [seekFind] at he
    by_cases hc : target < ((acc + len : ℕ) : ℚ)
    · rw [if_pos hc] at he
      simp only [Option.some.injEq, Prod.mk.injEq] at he
      obtain ⟨hj, ho⟩ := he
      subst hj; subst ho
      refine ⟨?_, ⟨?_, ?_⟩, ?_⟩
      · simp only [List.length_cons]; omega
      · simpa using hacc
      · simpa using hc
      · norm_num
    · rw [if_neg hc] at he
      rw [Option.map_eq_some'] at he
      obtain ⟨⟨j', o'⟩, hrec, heq⟩ := he
      simp only [Prod.mk.injEq] at heq
      obtain ⟨hj, ho⟩ := heq
      subst hj; subst ho
      have hacc' : ((acc + len : ℕ) : ℚ) ≤ target := le_of_not_lt hc
      obtain ⟨h1, ⟨h2, h3⟩, h4⟩ := ih target (acc + len) j' o' hacc' hrec
      have e1 : acc + (len :: rest.take j').sum = (acc + len) + (rest.take j').sum := by
        simp [List.sum_cons]; omega
      have e2 : acc + (len :: rest.take (j'+1)).sum = (acc + len) + (rest.take (j'+1)).sum := by
        simp [List.sum_cons]; omega
      refine ⟨by simpa using Nat.succ_lt_succ h1, ⟨?_, ?_⟩, ?_⟩
      · rw [List.take_succ_cons, e1]; exact h2
      · rw [List.take_succ_cons, e2]; exact h3
      · rw [List.take_succ_cons, e1]; exact h4

theorem seekFind_none (lens : List ℕ) : ∀ (target : ℚ) (acc : ℕ),
    (acc : ℚ) ≤ target → seekFind lens target acc = none →
    ((acc + lens.sum : ℕ) : ℚ) ≤ target := by
  induction lens with
  | nil => intro target acc hacc _; simpa using hacc
  | cons len rest ih =>
    intro target acc hacc he
    simp only [seekFind] at he
    by_cases hc : target < ((acc + len : ℕ) : ℚ)
    · rw [if_pos hc] at he; simp at he
    · rw [if_neg hc] at he
      rw [Option.map_eq_none'] at he
      have := ih target (acc + len) (le_of_not_lt hc) he
      have e1 : acc + (len :: rest).sum = (acc + len) + rest.sum := by
        simp [List.sum_cons]; omega
      rw [e1]; exact this

theorem seekFind_none_of_ge (lens : List ℕ) : ∀ (target : ℚ) (acc : ℕ),
    ((acc + lens.sum : ℕ) : ℚ) ≤ target → seekFind lens target acc = none := by
  induction lens with
  | nil => intro target acc _; rfl
  | cons len rest ih =>
    intro target acc h
    have hsums : ((acc + len : ℕ) : ℚ) ≤ ((acc + (len :: rest).sum : ℕ) : ℚ) := by
      have hn : acc + len ≤ acc + (len :: rest).sum := by
        simp only [List.sum_cons]; omega
      exact_mod_cast hn
    have hc : ¬(target < ((acc + len : ℕ) : ℚ)) := not_lt.mpr (le_trans hsums h)
    have hrec : seekFind rest target (acc + len) = none := by
      apply ih
      have e1 : acc + (len :: rest).sum = (acc + len) + rest.sum := by
        simp [List.sum_cons]; omega
      rw [e1] at h; exact h
    simp only [seekFind]
    rw [if_neg hc, hrec, Option.map_none']

/-! ### Bounds on the clamped seek target -/

theorem seek_target_nonneg (p : ℚ) (T : ℕ) :
    0 ≤ (max 0 (min 100 p)) / 100 * (T : ℚ) := by positivity

theorem seek_target_le (p : ℚ) (T : ℕ) :
    (max 0 (min 100 p)) / 100 * (T : ℚ) ≤ (T : ℚ) := by
  have h1 : max 0 (min 100 p) ≤ 100 := max_le (by norm_num) (min_le_left _ _)
  have h2 : (max 0 (min 100 p)) / 100 ≤ 1 := (div_le_one (by norm_num)).mpr h1
  calc (max 0 (min 100 p)) / 100 * (T : ℚ) ≤ 1 * (T : ℚ) :=
        mul_le_mul_of_nonneg_right h2 (Nat.cast_nonneg T)
    _ = (T : ℚ) := one_mul _

/-! ### Invariant preservation -/

theorem inv_stop (s : AudioService) : Inv (stopOp s).1 := by
  refine ⟨rfl, rfl, ?_, ?_, ?_, fun _ => rfl⟩
  · simp [stopOp, currentPos]
  · exact le_refl 0
  · norm_num [stopOp]

theorem inv_updateProgress (s : AudioService) (h : Inv s) :
    Inv (updateProgressState s) := by
  refine ⟨h.lens_eq, h.total_eq, h.pos_le, ?_, ?_, ?_⟩
  · rw [updateProgress_progress]
    split
    · positivity
    · exact le_refl 0
  · rw [updateProgress_progress]
    split
    · rename_i hpos
      have hle : (currentPos s : ℚ) ≤ (s.totalLength : ℚ) := by exact_mod_cast h.pos_le
      have htot : (0:ℚ) < (s.totalLength : ℚ) := by exact_mod_cast hpos
      calc (currentPos s : ℚ) / (s.totalLength : ℚ) * 100 ≤ 1 * 100 := by
            apply mul_le_mul_of_nonneg_right _ (by norm_num)
            exact (div_le_one htot).mpr hle
        _ = 100 := one_mul _
    · norm_num
  · intro h0
    simp only [updateProgress_total] at h0
    have hn : ¬(0 < s.totalLength) := by omega
    rw [updateProgress_progress, if_neg hn]

theorem inv_setIndex (s : AudioService) (h : Inv s) (i2 : ℕ) :
    Inv { s with currentTextIndex := i2, resumeCharIndex := 0 } := by
  refine ⟨h.lens_eq, h.total_eq, ?_, h.prog_nonneg, h.prog_le, h.prog_zero⟩
  show (s.queueLengths.take i2).sum + 0 ≤ s.totalLength
  rw [h.total_eq, Nat.add_zero]
  exact sum_take_le s.queueLengths i2

theorem inv_speak (s : AudioService) (k : ℕ) (h : Inv s) :
    Inv (speakNextChunk s k).1 := by
  cases hp : s.isPlaying with
  | false => rw [speakNextChunk_not_playing s k hp]; exact h
  | true =>
    by_cases hidx : s.queue.length ≤ s.currentTextIndex
    · have he : speakNextChunk s k = stopOp s := by simp [speakNextChunk, hp, hidx]
      rw [he]; exact inv_stop s
    · have hlt : s.currentTextIndex < s.queue.length := Nat.lt_of_not_le hidx
      by_cases ht : trimChars ((s.queue.getD s.currentTextIndex []).drop k) = []
      · rw [speakNextChunk_skips s k hp hlt ht]
        exact inv_setIndex (updateProgressState s) (inv_updateProgress s h) _
      · rw [speakNextChunk_speaks s k hp hlt ht]
        exact inv_updateProgress s h

theorem inv_pause (s : AudioService) (h : Inv s) : Inv (pauseOp s).1 :=
  ⟨h.lens_eq, h.total_eq, h.pos_le, h.prog_nonneg, h.prog_le, h.prog_zero⟩

theorem inv_resume (s : AudioService) (h : Inv s) : Inv (resumeOp s).1 := by
  unfold resumeOp
  by_cases hc : s.isPlaying = false ∧ 0 < s.queue.length
  · rw [if_pos hc]
    apply inv_speak
    exact ⟨h.lens_eq, h.total_eq, h.pos_le, h.prog_nonneg, h.prog_le, h.prog_zero⟩
  · rw [if_neg hc]; exact h

theorem inv_next (s : AudioService) (h : Inv s) : Inv (nextChunkOp s).1 := by
  unfold nextChunkOp
  exact inv_speak _ 0 (inv_setIndex s h _)

theorem inv_prev (s : AudioService) (h : Inv s) : Inv (prevChunkOp s).1 := by
  unfold prevChunkOp
  exact inv_speak _ 0 (inv_setIndex s h _)

theorem inv_onEnd (s : AudioService) (h : Inv s) : Inv (onEndOp s).1 := by
  unfold onEndOp
  by_cases hc : s.isPlaying = true
  · rw [if_pos hc]; exact inv_setIndex s h _
  · rw [if_neg hc]; exact h

theorem inv_onError (s : AudioService) (err : String) (h : Inv s) :
    Inv (onErrorOp s err).1 := by
  unfold onErrorOp
  by_cases hc : s.isPlaying = true ∧ err ≠ "interrupted"
  · rw [if_pos hc]; exact inv_setIndex s h _
  · rw [if_neg hc]; exact h

theorem inv_onBoundary (s : AudioService) (k : ℕ) (h : Inv s)
    (h1 : s.currentTextIndex < s.queue.length)
    (h2 : k < (s.queue.getD s.currentTextIndex []).length) :
    Inv (onBoundaryOp s k) := by
  refine ⟨h.lens_eq, h.total_eq, ?_, h.prog_nonneg, h.prog_le, h.prog_zero⟩
  show (s.queueLengths.take s.currentTextIndex).sum + k ≤ s.totalLength
  have hlen : s.queueLengths.getD s.currentTextIndex 0 =
      (s.queue.getD s.currentTextIndex []).length := by
    rw [h.lens_eq]; exact getD_map_length _ _ h1
  have hidx' : s.currentTextIndex < s.queueLengths.length := by
    rw [h.lens_eq]; simpa using h1
  have hst := sum_take_succ_getD s.queueLengths s.currentTextIndex hidx'
  have hle := sum_take_le s.queueLengths (s.currentTextIndex + 1)
  rw [h.total_eq]
  omega

theorem inv_setVolume (s : AudioService) (v : ℚ) (h : Inv s) :
    Inv (setVolumeOp s v) :=
  ⟨h.lens_eq, h.total_eq, h.pos_le, h.prog_nonneg, h.prog_le, h.prog_zero⟩

theorem inv_seekBase_some (s : AudioService) (t : ℚ) (j o : ℕ) (h : Inv s)
    (ht0 : 0 ≤ t) (ht1 : t ≤ (s.totalLength : ℚ))
    (hfind : seekFind s.queueLengths t 0 = some (j, o)) :
    Inv { s with currentTextIndex := j, resumeCharIndex := o } := by
  obtain ⟨h1, ⟨h2, _⟩, h4⟩ :=
    seekFind_some s.queueLengths t 0 j o (by simpa using ht0) hfind
  refine ⟨h.lens_eq, h.total_eq, ?_, h.prog_nonneg, h.prog_le, h.prog_zero⟩
  show (s.queueLengths.take j).sum + o ≤ s.totalLength
  have hS : (((s.queueLengths.take j).sum : ℕ) : ℚ) ≤ t := by
    simpa using h2
  have hfl : (o : ℚ) ≤ t - (((s.queueLengths.take j).sum : ℕ) : ℚ) := by
    rw [h4]
    simp only [Nat.zero_add]
    exact Nat.floor_le (by linarith)
  have : (((s.queueLengths.take j).sum + o : ℕ) : ℚ) ≤ (s.totalLength : ℚ) := by
    push_cast at hfl hS ⊢
    linarith
  exact_mod_cast this

theorem inv_seek (s : AudioService) (p : ℚ) (h : Inv s) : Inv (seekOp s p).1 := by
  unfold seekOp
  by_cases hg : s.totalLength = 0 ∨ s.queue.length = 0
  · rw [if_pos hg]; exact h
  · rw [if_neg hg]
    have hInv1 : Inv { s with
        currentTextIndex := (seekDest s.queueLengths
          ((max 0 (min 100 p)) / 100 * (s.totalLength : ℚ))).1
        resumeCharIndex := (seekDest s.queueLengths
          ((max 0 (min 100 p)) / 100 * (s.totalLength : ℚ))).2 } := by
      unfold seekDest
      cases hfind : seekFind s.queueLengths
          ((max 0 (min 100 p)) / 100 * (s.totalLength : ℚ)) 0 with
      | some pr =>
        obtain ⟨j, o⟩ := pr
        exact inv_seekBase_some s _ j o h (seek_target_nonneg p _)
          (seek_target_le p _) hfind
      | none =>
        by_cases hcond : (max 0 (min 100 p)) / 100 * (s.totalLength : ℚ) ≤
            ((s.queueLengths.sum : ℕ) : ℚ) ∧ 0 < s.queueLengths.sum
        · rw [if_pos hcond]; exact inv_setIndex s h _
        · rw [if_neg hcond]; exact inv_setIndex s h _
    have hInv2 := inv_updateProgress _ hInv1
    by_cases hp : s.isPlaying = true
    · rw [if_pos (by simpa using hp)]
      exact inv_speak _ _ hInv2
    · rw [if_neg (by simpa using hp)]
      exact hInv2

theorem inv_play (s : AudioService) (text : List Char) (ti au co : String) :
    Inv (playOp s text ti au co).1 := by
  unfold playOp
  by_cases htr : trimChars text = []
  · rw [if_pos htr]; exact inv_stop s
  · rw [if_neg htr]
    apply inv_speak
    apply inv_updateProgress
    refine ⟨rfl, rfl, ?_, le_refl 0, by norm_num, fun _ => rfl⟩
    show (List.take 0 _).sum + 0 ≤ _
    simp

theorem inv_init : Inv initService := by
  refine ⟨rfl, rfl, ?_, le_refl 0, by norm_num [initService, initState], fun _ => rfl⟩
  simp [initService, initState, currentPos]

theorem inv_reachable (s : AudioService) (h : Reachable s) : Inv s := by
  induction h with
  | init => exact inv_init
  | step _ hst ih =>
    cases hst with
    | play text ti au co => exact inv_play _ text ti au co
    | pause => exact inv_pause _ ih
    | resume => exact inv_resume _ ih
    | stop => exact inv_stop _
    | next => exact inv_next _ ih
    | prev => exact inv_prev _ ih
    | seek p => exact inv_seek _ p ih
    | speakCont => exact inv_speak _ 0 ih
    | onEnd => exact inv_onEnd _ ih
    | onError err => exact inv_onError _ err ih
    | onBoundary k h1 h2 h3 => exact inv_onBoundary _ k ih h1 h2
    | setVolume v => exact inv_setVolume _ v ih

theorem stopOp_idle_eq (s : AudioService) (h : IdleState s) : (stopOp s).1 = s := by
  obtain ⟨e1, e2, e3, e4, e5, e6, e7, e8, e9, e10, e11⟩ := h
  cases s with
  | mk ip q cti rci ql tl st =>
    cases st with
    | mk sip sti sau sco svo shc spr scs sts =>
      simp_all [stopOp]

/-! ### Claims -/

attribute [local semireducible] Rat.mul Rat.add Rat.sub Rat.inv

/-- C1, amended.  At every republication of progress (`updateProgressState`,
which is how `play`, `seek` and every chunk start publish), the published
percentage equals
`100 * (sum(segmentLengths[0..currentSegmentIndex)) + resumeOffset) / totalLength`;
the published value always lies within `[0,100]` and is `0` whenever
`totalLength = 0`.  (A word-boundary event advances `resumeOffset` without
republishing, so between republications the published value can lag the
formula; see the counterexample.) -/
theorem c1_progress_invariant (s : AudioService) (h : Reachable s) :
    (0 ≤ s.state.progress ∧ s.state.progress ≤ 100 ∧
      (s.totalLength = 0 → s.state.progress = 0)) ∧
    (updateProgressState s).state.progress = pctFormula s := by
  have hInv := inv_reachable s h
  refine ⟨⟨hInv.prog_nonneg, hInv.prog_le, hInv.prog_zero⟩, ?_⟩
  rw [updateProgress_progress, pctFormula]
  by_cases h0 : s.totalLength = 0
  · rw [if_pos h0, if_neg (by omega)]
  · rw [if_neg h0, if_pos (by omega), currentPos]
    ring

/-- Witness for C1: the invariant instantiated at the initial state. -/
theorem c1_witness :
    (0 ≤ initService.state.progress ∧ initService.state.progress ≤ 100 ∧
      (initService.totalLength = 0 → initService.state.progress = 0)) ∧
    (updateProgressState initService).state.progress = pctFormula initService :=
  c1_progress_invariant initService Reachable.init

/-- C1, counterexample to the claim as stated: after `play("ab cd", ...)`
(one 5-character segment) a word-boundary event at absolute index 3 stores
`resumeOffset = 3` but does not republish, so the published progress is
still `0` while the claimed formula gives `100 * 3 / 5 = 60`.  The state is
reachable, so "for every session the published progress equals the formula"
is false of the code. -/
theorem c1_counterexample :
    Reachable sBound ∧ sBound.state.progress = 0 ∧ pctFormula sBound = 60 ∧
    ¬(sBound.state.progress = pctFormula sBound) := by
  refine ⟨?_, by decide, by decide, by decide⟩
  exact Reachable.step
    (Reachable.step Reachable.init (Step.play initService txtAB "T" "A" "c"))
    (Step.onBoundary sPlayAB 3 (by decide) (by decide) (by decide))

/-- C3.  `play` called on an idle engine with whitespace-only text (the
empty string included) is a no-op: the state is unchanged, `hasContent`
stays `false` and no segments are queued.  `playOp` is a total function,
which models the fact that `play` does not throw. -/
theorem c3_whitespace_noop (s : AudioService) (hIdle : IdleState s)
    (text : List Char) (hws : text.all isWs = true) (ti au co : String) :
    (playOp s text ti au co).1 = s ∧
    (playOp s text ti au co).1.state.hasContent = false ∧
    (playOp s text ti au co).1.queue = [] := by
  have ht : trimChars text = [] := trimChars_eq_nil_of_all_ws text hws
  have hplay : (playOp s text ti au co).1 = (stopOp s).1 := by
    unfold playOp; rw [if_pos ht]
  rw [hplay, stopOp_idle_eq s hIdle]
  obtain ⟨_, e2, _, _, _, _, _, e8, _, _, _⟩ := hIdle
  exact ⟨rfl, e8, e2⟩

/-- Witness for C3: the freshly constructed engine and the text `"  "`. -/
theorem c3_witness :
    (playOp initService [' ', ' '] "T" "A" "c").1 = initService ∧
    (playOp initService [' ', ' '] "T" "A" "c").1.state.hasContent = false ∧
    (playOp initService [' ', ' '] "T" "A" "c").1.queue = [] :=
  c3_whitespace_noop initService
    ⟨rfl, rfl, rfl, rfl, rfl, rfl, rfl, rfl, rfl, rfl, rfl⟩
    [' ', ' '] (by decide) "T" "A" "c"

/-- C5.  The `onerror` handler ignores the engine's own cancellations
(`error = "interrupted"`): the state is untouched and nothing is issued.
Any other error while playing advances to the next segment, resets the
offset and schedules the next chunk after a 100 ms delay. -/
theorem c5_error_handling (s : AudioService) (err : String) :
    (err = "interrupted" → onErrorOp s err = (s, [])) ∧
    (s.isPlaying = true → err ≠ "interrupted" →
      (onErrorOp s err).1.currentTextIndex = s.currentTextIndex + 1 ∧
      (onErrorOp s err).1.resumeCharIndex = 0 ∧
      (onErrorOp s err).2 = [Action.schedule 100]) := by
  constructor
  · intro he
    unfold onErrorOp
    rw [if_neg]
    intro hc
    exact hc.2 he
  · intro hp he
    unfold onErrorOp
    rw [if_pos ⟨hp, he⟩]
    exact ⟨rfl, rfl, rfl⟩

/-- Witness for C5: a playing two-segment session, with the engine's own
interruption and with a genuine synthesis failure. -/
theorem c5_witness :
    onErrorOp sPlay2 "interrupted" = (sPlay2, []) ∧
    ((onErrorOp sPlay2 "synthesis-failed").1.currentTextIndex =
        sPlay2.currentTextIndex + 1 ∧
      (onErrorOp sPlay2 "synthesis-failed").1.resumeCharIndex = 0 ∧
      (onErrorOp sPlay2 "synthesis-failed").2 = [Action.schedule 100]) :=
  ⟨(c5_error_handling sPlay2 "interrupted").1 rfl,
   (c5_error_handling sPlay2 "synthesis-failed").2 (by decide) (by decide)⟩

/-- C9.  `stop()` on an already idle engine leaves the whole state (and in
particular the published snapshot) unchanged: `hasContent` and `isPlaying`
remain `false`.  `stopOp` is a total function, which models the fact that
`stop` does not throw. -/
theorem c9_stop_idempotent (s : AudioService) (hIdle : IdleState s) :
    (stopOp s).1 = s ∧ (stopOp s).1.state.hasContent = false ∧
    (stopOp s).1.state.isPlaying = false := by
  refine ⟨stopOp_idle_eq s hIdle, rfl, rfl⟩

/-- Witness for C9: the freshly constructed engine. -/
theorem c9_witness :
    (stopOp initService).1 = initService ∧
    (stopOp initService).1.state.hasContent = false ∧
    (stopOp initService).1.state.isPlaying = false :=
  c9_stop_idempotent initService
    ⟨rfl, rfl, rfl, rfl, rfl, rfl, rfl, rfl, rfl, rfl, rfl⟩

theorem speakNext_preserves (s : AudioService) (k : ℕ)
    (hlt : s.currentTextIndex < s.queue.length)
    (ht : trimChars ((s.queue.getD s.currentTextIndex []).drop k) ≠ []) :
    (speakNextChunk s k).1.currentTextIndex = s.currentTextIndex ∧
    (speakNextChunk s k).1.resumeCharIndex = s.resumeCharIndex := by
  cases hp : s.isPlaying with
  | false =>
    rw [speakNextChunk_not_playing s k hp]
    exact ⟨rfl, rfl⟩
  | true =>
    rw [speakNextChunk_speaks s k hp hlt ht]
    exact ⟨rfl, rfl⟩

/-- C2, amended.  `nextChunk()` / `prevChunk()` always update the selected
segment (advance with wrap-around / retreat clamped at 0) and reset the
resume offset, and when the playing flag is set they immediately speak the
newly selected segment from offset 0.  When the engine is paused, however,
`speakNextChunk` returns before speaking, so no speech is issued: the new
selection only takes effect at the next `resume()`. -/
theorem c2_skip_semantics (s : AudioService) (hq : s.queue ≠ [])
    (hidx : s.currentTextIndex < s.queue.length)
    (ht0 : trimChars (s.queue.getD (nextIndex s) []) ≠ [])
    (ht1 : trimChars (s.queue.getD (s.currentTextIndex - 1) []) ≠ []) :
    ((nextChunkOp s).1.currentTextIndex = nextIndex s ∧
      (nextChunkOp s).1.resumeCharIndex = 0 ∧
      (prevChunkOp s).1.currentTextIndex = s.currentTextIndex - 1 ∧
      (prevChunkOp s).1.resumeCharIndex = 0) ∧
    (s.isPlaying = true →
      (nextChunkOp s).2 =
        [Action.cancel, Action.cancel, Action.speak (s.queue.getD (nextIndex s) [])] ∧
      (prevChunkOp s).2 =
        [Action.cancel, Action.cancel,
         Action.speak (s.queue.getD (s.currentTextIndex - 1) [])]) ∧
    (s.isPlaying = false →
      (nextChunkOp s).2 = [Action.cancel] ∧ (prevChunkOp s).2 = [Action.cancel]) := by
  have hnext_lt : nextIndex s < s.queue.length := by
    unfold nextIndex
    split
    · exact List.length_pos.mpr hq
    · omega
  have hprev_lt : s.currentTextIndex - 1 < s.queue.length := by omega
  refine ⟨⟨?_, ?_, ?_, ?_⟩, ?_, ?_⟩
  · exact (speakNext_preserves
      { s with currentTextIndex := nextIndex s, resumeCharIndex := 0 } 0 hnext_lt ht0).1
  · exact (speakNext_preserves
      { s with currentTextIndex := nextIndex s, resumeCharIndex := 0 } 0 hnext_lt ht0).2
  · exact (speakNext_preserves
      { s with currentTextIndex := s.currentTextIndex - 1, resumeCharIndex := 0 } 0
      hprev_lt ht1).1
  · exact (speakNext_preserves
      { s with currentTextIndex := s.currentTextIndex - 1, resumeCharIndex := 0 } 0
      hprev_lt ht1).2
  · intro hp
    constructor
    · have e := speakNextChunk_speaks
        { s with currentTextIndex := nextIndex s, resumeCharIndex := 0 } 0 hp hnext_lt ht0
      show (Action.cancel :: (speakNextChunk
        { s with currentTextIndex := nextIndex s, resumeCharIndex := 0 } 0).2) = _
      rw [e]
      exact rfl
    · have e := speakNextChunk_speaks
        { s with currentTextIndex := s.currentTextIndex - 1, resumeCharIndex := 0 } 0
        hp hprev_lt ht1
      show (Action.cancel :: (speakNextChunk
        { s with currentTextIndex := s.currentTextIndex - 1, resumeCharIndex := 0 } 0).2) = _
      rw [e]
      exact rfl
  · intro hp
    constructor
    · have e := speakNextChunk_not_playing
        { s with currentTextIndex := nextIndex s, resumeCharIndex := 0 } 0 hp
      show (Action.cancel :: (speakNextChunk
        { s with currentTextIndex := nextIndex s, resumeCharIndex := 0 } 0).2) = _
      rw [e]
    · have e := speakNextChunk_not_playing
        { s with currentTextIndex := s.currentTextIndex - 1, resumeCharIndex := 0 } 0 hp
      show (Action.cancel :: (speakNextChunk
        { s with currentTextIndex := s.currentTextIndex - 1, resumeCharIndex := 0 } 0).2) = _
      rw [e]

/-- Witness for C2: the playing two-segment session `sPlay2`. -/
theorem c2_witness :
    ((nextChunkOp sPlay2).1.currentTextIndex = nextIndex sPlay2 ∧
      (nextChunkOp sPlay2).1.resumeCharIndex = 0 ∧
      (prevChunkOp sPlay2).1.currentTextIndex = sPlay2.currentTextIndex - 1 ∧
      (prevChunkOp sPlay2).1.resumeCharIndex = 0) ∧
    ((nextChunkOp sPlay2).2 =
        [Action.cancel, Action.cancel,
         Action.speak (sPlay2.queue.getD (nextIndex sPlay2) [])] ∧
      (prevChunkOp sPlay2).2 =
        [Action.cancel, Action.cancel,
         Action.speak (sPlay2.queue.getD (sPlay2.currentTextIndex - 1) [])]) := by
  have h := c2_skip_semantics sPlay2 (by decide) (by decide) (by decide) (by decide)
  exact ⟨h.1, h.2.1 (by decide)⟩

/-- C2, counterexample to the claim as stated: in the reachable paused
two-segment session `sPaused2` (which still has content), `nextChunk()` and
`prevChunk()` emit only the cancellation - no `Action.speak` - so they do
not "immediately begin speaking the newly selected segment regardless of
the playing/paused flag value". -/
theorem c2_counterexample :
    sPaused2.state.hasContent = true ∧ sPaused2.queue.length = 2 ∧
    sPaused2.isPlaying = false ∧
    (nextChunkOp sPaused2).2 = [Action.cancel] ∧
    (prevChunkOp sPaused2).2 = [Action.cancel] ∧
    Reachable sPaused2 := by
  refine ⟨by decide, by decide, by decide, by decide, by decide, ?_⟩
  exact Reachable.step
    (Reachable.step Reachable.init (Step.play initService txt2 "T" "A" "c"))
    (Step.pause sPlay2)

/-- C8.  With a non-empty session whose segment 0 is speakable:
`nextChunk()` at the last segment wraps the index to 0, and `prevChunk()`
at segment 0 stays at 0; both reset the resume offset to 0. -/
theorem c8_wrap_clamp (s : AudioService) (hq : s.queue ≠ [])
    (ht0 : trimChars (s.queue.getD 0 []) ≠ []) :
    (s.currentTextIndex = s.queue.length - 1 →
      (nextChunkOp s).1.currentTextIndex = 0 ∧
      (nextChunkOp s).1.resumeCharIndex = 0) ∧
    (s.currentTextIndex = 0 →
      (prevChunkOp s).1.currentTextIndex = 0 ∧
      (prevChunkOp s).1.resumeCharIndex = 0) := by
  have hlen : 0 < s.queue.length := List.length_pos.mpr hq
  constructor
  · intro hlast
    have hcond : s.queue.length ≤ s.currentTextIndex + 1 := by omega
    have hni : nextIndex s = 0 := by unfold nextIndex; rw [if_pos hcond]
    unfold nextChunkOp
    rw [hni]
    exact ⟨(speakNext_preserves
        { s with currentTextIndex := 0, resumeCharIndex := 0 } 0 hlen ht0).1,
      (speakNext_preserves
        { s with currentTextIndex := 0, resumeCharIndex := 0 } 0 hlen ht0).2⟩
  · intro h0
    unfold prevChunkOp
    rw [h0]
    exact ⟨(speakNext_preserves
        { s with currentTextIndex := 0 - 1, resumeCharIndex := 0 } 0 hlen ht0).1,
      (speakNext_preserves
        { s with currentTextIndex := 0 - 1, resumeCharIndex := 0 } 0 hlen ht0).2⟩

/-- Witness for C8: `sNext2` sits at the last of its two segments, so
`nextChunk()` wraps to 0; `sPlay2` sits at segment 0, so `prevChunk()`
stays at 0. -/
theorem c8_witness :
    ((nextChunkOp sNext2).1.currentTextIndex = 0 ∧
      (nextChunkOp sNext2).1.resumeCharIndex = 0) ∧
    ((prevChunkOp sPlay2).1.currentTextIndex = 0 ∧
      (prevChunkOp sPlay2).1.resumeCharIndex = 0) :=
  ⟨(c8_wrap_clamp sNext2 (by decide) (by decide)).1 (by decide),
   (c8_wrap_clamp sPlay2 (by decide) (by decide)).2 (by decide)⟩

/-- C6.  `pause()` keeps `(currentSegmentIndex, resumeOffset)` untouched,
and an immediately following `resume()` (no seek/next/prev, no callbacks in
between) still sees the same pair and speaks exactly the current segment's
substring starting at that offset. -/
theorem c6_pause_resume (s : AudioService)
    (hidx : s.currentTextIndex < s.queue.length)
    (ht : trimChars ((s.queue.getD s.currentTextIndex []).drop s.resumeCharIndex) ≠ []) :
    ((pauseOp s).1.currentTextIndex = s.currentTextIndex ∧
      (pauseOp s).1.resumeCharIndex = s.resumeCharIndex) ∧
    ((resumeOp (pauseOp s).1).1.currentTextIndex = s.currentTextIndex ∧
      (resumeOp (pauseOp s).1).1.resumeCharIndex = s.resumeCharIndex) ∧
    Action.speak ((s.queue.getD s.currentTextIndex []).drop s.resumeCharIndex) ∈
      (resumeOp (pauseOp s).1).2 := by
  have hq : 0 < s.queue.length := by omega
  have hres : resumeOp (pauseOp s).1 =
      speakNextChunk
        { (pauseOp s).1 with
          isPlaying := true,
          state := { (pauseOp s).1.state with isPlaying := true } }
        (pauseOp s).1.resumeCharIndex := by
    unfold resumeOp
    rw [if_pos (⟨rfl, hq⟩ :
      (pauseOp s).1.isPlaying = false ∧ 0 < (pauseOp s).1.queue.length)]
  have e := speakNextChunk_speaks
    { (pauseOp s).1 with
      isPlaying := true,
      state := { (pauseOp s).1.state with isPlaying := true } }
    (pauseOp s).1.resumeCharIndex rfl hidx ht
  rw [hres, e]
  exact ⟨⟨rfl, rfl⟩, ⟨rfl, rfl⟩,
    List.mem_cons_of_mem _ (List.mem_cons_self _ _)⟩

/-- Witness for C6: the reachable state `sBound` (segment 0 of "ab cd",
resume offset 3); pausing and resuming keeps the pair `(0, 3)` and speaks
`"cd"`, the substring from offset 3. -/
theorem c6_witness :
    ((pauseOp sBound).1.currentTextIndex = sBound.currentTextIndex ∧
      (pauseOp sBound).1.resumeCharIndex = sBound.resumeCharIndex) ∧
    ((resumeOp (pauseOp sBound).1).1.currentTextIndex = sBound.currentTextIndex ∧
      (resumeOp (pauseOp sBound).1).1.resumeCharIndex = sBound.resumeCharIndex) ∧
    Action.speak ((sBound.queue.getD sBound.currentTextIndex []).drop
        sBound.resumeCharIndex) ∈
      (resumeOp (pauseOp sBound).1).2 :=
  c6_pause_resume sBound (by decide) (by decide)

theorem lens_sum_pos (s : AudioService)
    (hL : s.queueLengths = s.queue.map List.length) (hq : s.queue ≠ [])
    (hpos : ∀ n ∈ s.queueLengths, 1 ≤ n) : 0 < s.queueLengths.sum := by
  cases hql : s.queueLengths with
  | nil =>
    exfalso
    rw [hL, List.map_eq_nil_iff] at hql
    exact hq hql
  | cons a tl =>
    have ha : 1 ≤ a := hpos a (by rw [hql]; exact List.mem_cons_self _ _)
    simp only [List.sum_cons]
    omega

/-- C10.  `seek(p)` for any `p ≥ 100` (in particular `seek(100)`, and any
percent whose clamped target character position reaches `totalLength`)
lands on the *start* of the last segment: `currentTextIndex` becomes the
last index and `resumeOffset` becomes 0 - the start-clamped edge policy for
seeking to the very end. -/
theorem c10_seek_end (s : AudioService) (p : ℚ)
    (hL : s.queueLengths = s.queue.map List.length)
    (hT : s.totalLength = s.queueLengths.sum)
    (hq : s.queue ≠ [])
    (hpos : ∀ n ∈ s.queueLengths, 1 ≤ n)
    (hp : 100 ≤ p)
    (htrim : trimChars (s.queue.getD (s.queue.length - 1) []) ≠ []) :
    (seekOp s p).1.currentTextIndex = s.queue.length - 1 ∧
    (seekOp s p).1.resumeCharIndex = 0 := by
  have hlen0 : 0 < s.queue.length := List.length_pos.mpr hq
  have hleneq : s.queueLengths.length = s.queue.length := by rw [hL]; simp
  have hsum : 0 < s.queueLengths.sum := lens_sum_pos s hL hq hpos
  have hguard : ¬(s.totalLength = 0 ∨ s.queue.length = 0) := by
    rintro (h | h) <;> omega
  unfold seekOp
  rw [if_neg hguard]
  dsimp only
  have hclamp : max 0 (min 100 p) = 100 := by
    rw [min_eq_left hp, max_eq_right (by norm_num : (0:ℚ) ≤ 100)]
  rw [hclamp]
  have htv : (100 : ℚ) / 100 * (s.totalLength : ℚ) = ((0 + s.queueLengths.sum : ℕ) : ℚ) := by
    rw [hT]; push_cast; ring
  have hfind : seekFind s.queueLengths ((100 : ℚ) / 100 * (s.totalLength : ℚ)) 0 = none := by
    apply seekFind_none_of_ge
    rw [htv]
  have hdest : seekDest s.queueLengths ((100 : ℚ) / 100 * (s.totalLength : ℚ)) =
      (s.queueLengths.length - 1, 0) := by
    unfold seekDest
    rw [hfind, if_pos ⟨le_of_eq (by rw [htv]; push_cast; ring), hsum⟩]
  rw [hdest]
  dsimp only
  rw [hleneq]
  have hcond : (updateProgressState
      { s with currentTextIndex := s.queue.length - 1, resumeCharIndex := 0 }).isPlaying
      = s.isPlaying := rfl
  rw [hcond]
  by_cases hpl : s.isPlaying = true
  · rw [if_pos hpl]
    have hlt2 : s.queue.length - 1 < s.queue.length := by omega
    exact
      ⟨(speakNext_preserves
          (updateProgressState
            { s with currentTextIndex := s.queue.length - 1, resumeCharIndex := 0 })
          0 hlt2 htrim).1,
        (speakNext_preserves
          (updateProgressState
            { s with currentTextIndex := s.queue.length - 1, resumeCharIndex := 0 })
          0 hlt2 htrim).2⟩
  · rw [if_neg hpl]
    exact ⟨rfl, rfl⟩

/-- Witness for C10: `seek(100)` on the playing two-segment session lands
on `(segment 1, offset 0)`. -/
theorem c10_witness :
    (seekOp sPlay2 100).1.currentTextIndex = sPlay2.queue.length - 1 ∧
    (seekOp sPlay2 100).1.resumeCharIndex = 0 :=
  c10_seek_end sPlay2 100 (by decide) (by decide) (by decide) (by decide)
    (by norm_num) (by decide)

theorem progress_abs_le (pos t g T : ℚ) (hT : 0 < T) (h : |pos - t| ≤ g) :
    |pos / T * 100 - 100 * t / T| ≤ 100 * g / T := by
  have e : pos / T * 100 - 100 * t / T = 100 * (pos - t) / T := by ring
  rw [e, abs_div, abs_of_pos hT, abs_mul,
    abs_of_nonneg (show (0:ℚ) ≤ 100 by norm_num)]
  rw [div_le_div_iff_of_pos_right hT]
  exact mul_le_mul_of_nonneg_left h (by norm_num)

theorem speakNextChunk_progress (s : AudioService) (k : ℕ)
    (hidx : s.currentTextIndex < s.queue.length) :
    (speakNextChunk s k).1.state.progress =
      if s.isPlaying = true then (updateProgressState s).state.progress
      else s.state.progress := by
  by_cases hp : s.isPlaying = true
  · rw [if_pos hp]
    by_cases ht : trimChars ((s.queue.getD s.currentTextIndex []).drop k) = []
    · rw [speakNextChunk_skips s k hp hidx ht]
    · rw [speakNextChunk_speaks s k hp hidx ht]
  · have hp2 : s.isPlaying = false := by revert hp; cases s.isPlaying <;> simp
    rw [if_neg hp, speakNextChunk_not_playing s k hp2]

theorem seekDest_lt (lens : List ℕ) (t : ℚ) (hlen : lens ≠ []) (h0 : (0:ℚ) ≤ t) :
    (seekDest lens t).1 < lens.length := by
  unfold seekDest
  cases hfind : seekFind lens t 0 with
  | some pr =>
    obtain ⟨j, o⟩ := pr
    exact (seekFind_some lens t 0 j o (by simpa using h0) hfind).1
  | none =>
    by_cases hcond : t ≤ ((lens.sum : ℕ) : ℚ) ∧ 0 < lens.sum
    · rw [if_pos hcond]
      have : 0 < lens.length := List.length_pos.mpr hlen
      dsimp only
      omega
    · rw [if_neg hcond]
      dsimp only
      exact List.length_pos.mpr hlen

theorem seekOp_progress (s : AudioService) (p : ℚ)
    (hguard : ¬(s.totalLength = 0 ∨ s.queue.length = 0))
    (hd : (seekDest s.queueLengths
        (max 0 (min 100 p) / 100 * (s.totalLength : ℚ))).1 < s.queue.length) :
    (seekOp s p).1.state.progress =
      if 0 < s.totalLength then
        ((((s.queueLengths.take (seekDest s.queueLengths
              (max 0 (min 100 p) / 100 * (s.totalLength : ℚ))).1).sum +
            (seekDest s.queueLengths
              (max 0 (min 100 p) / 100 * (s.totalLength : ℚ))).2 : ℕ) : ℚ) /
          (s.totalLength : ℚ)) * 100
      else 0 := by
  unfold seekOp
  rw [if_neg hguard]
  dsimp only
  set T := max 0 (min 100 p) / 100 * (s.totalLength : ℚ) with hTdef
  set d := seekDest s.queueLengths T with hddef
  set s1 : AudioService := { s with currentTextIndex := d.1, resumeCharIndex := d.2 }
    with hs1def
  have hcond : (updateProgressState s1).isPlaying = s.isPlaying := rfl
  rw [hcond]
  by_cases hpl : s.isPlaying = true
  · rw [if_pos hpl]
    show (speakNextChunk (updateProgressState s1) d.2).1.state.progress = _
    have hidx2 : (updateProgressState s1).currentTextIndex <
        (updateProgressState s1).queue.length := hd
    rw [speakNextChunk_progress (updateProgressState s1) d.2 hidx2]
    rw [if_pos (show (updateProgressState s1).isPlaying = true from hpl)]
    rw [updateProgress_progress]
    exact rfl
  · rw [if_neg hpl]
    show (updateProgressState s1).state.progress = _
    rw [updateProgress_progress]
    exact rfl

/-- C7, amended.  For a non-empty session and `p` in `[0,100]`, `seek(p)`
followed immediately by reading progress yields a value within one
segment's length-fraction of `p`.  Exact equality holds whenever the target
character position `p/100 * totalLength` is an integer *strictly below*
`totalLength` - in particular at every interior segment boundary.  Seeking
to the very end (`p = 100`, whose target is the final boundary) instead
lands at the start of the last segment, so progress falls short of `p` by
exactly the last segment's length-fraction: equality does not hold at that
boundary, contrary to the claim as stated. -/
theorem c7_seek_roundtrip (s : AudioService) (p : ℚ)
    (hL : s.queueLengths = s.queue.map List.length)
    (hT : s.totalLength = s.queueLengths.sum)
    (hq : s.queue ≠ [])
    (hpos : ∀ n ∈ s.queueLengths, 1 ≤ n)
    (hp0 : 0 ≤ p) (hp1 : p ≤ 100) :
    (∃ i, i < s.queue.length ∧
      |(seekOp s p).1.state.progress - p| ≤
        100 * ((s.queueLengths.getD i 0 : ℕ) : ℚ) / (s.totalLength : ℚ)) ∧
    (∀ k : ℕ, (k : ℚ) = p / 100 * (s.totalLength : ℚ) → k < s.totalLength →
      (seekOp s p).1.state.progress = p) := by
  have hlen0 : 0 < s.queue.length := List.length_pos.mpr hq
  have hleneq : s.queueLengths.length = s.queue.length := by rw [hL]; simp
  have hlensne : s.queueLengths ≠ [] := by
    intro hnil
    rw [hnil] at hleneq
    simp at hleneq
    omega
  have hsum : 0 < s.queueLengths.sum := lens_sum_pos s hL hq hpos
  have htotpos : 0 < s.totalLength := by omega
  have htotq : (0:ℚ) < (s.totalLength : ℚ) := by exact_mod_cast htotpos
  have htne : (s.totalLength : ℚ) ≠ 0 := ne_of_gt htotq
  have hguard : ¬(s.totalLength = 0 ∨ s.queue.length = 0) := by
    rintro (h | h) <;> omega
  have hclamp : max 0 (min 100 p) = p := by
    rw [min_eq_right hp1, max_eq_right hp0]
  set t := p / 100 * (s.totalLength : ℚ) with htq
  have ht0 : (0:ℚ) ≤ t := by
    rw [htq]
    exact mul_nonneg (div_nonneg hp0 (by norm_num)) (Nat.cast_nonneg _)
  have htle : t ≤ (s.totalLength : ℚ) := by
    have h1 := seek_target_le p s.totalLength
    rw [hclamp] at h1
    rw [htq]
    exact h1
  have hd' : (seekDest s.queueLengths
      (max 0 (min 100 p) / 100 * (s.totalLength : ℚ))).1 < s.queue.length := by
    rw [hclamp, ← hleneq]
    exact seekDest_lt s.queueLengths t hlensne ht0
  have hprog := seekOp_progress s p hguard hd'
  rw [hclamp, if_pos htotpos] at hprog
  have hpt : p = 100 * t / (s.totalLength : ℚ) := by
    rw [htq]
    field_simp
  cases hfind : seekFind s.queueLengths t 0 with
  | some pr =>
    obtain ⟨j, o⟩ := pr
    have hdest : seekDest s.queueLengths t = (j, o) := by
      unfold seekDest; rw [hfind]
    rw [hdest] at hprog
    dsimp only at hprog
    obtain ⟨hj, ⟨hge, hlt⟩, hfo⟩ :=
      seekFind_some s.queueLengths t 0 j o (by simpa using ht0) hfind
    simp only [Nat.zero_add] at hge hlt hfo
    have hjq : j < s.queue.length := by rw [← hleneq]; exact hj
    have hgetd : s.queueLengths.getD j 0 = s.queueLengths[j] :=
      List.getD_eq_getElem s.queueLengths 0 hj
    have hg1 : 1 ≤ s.queueLengths.getD j 0 := by
      rw [hgetd]
      exact hpos _ (List.getElem_mem hj)
    rw [sum_take_succ_getD s.queueLengths j hj] at hlt
    have hfor : (o:ℚ) ≤ t - (((s.queueLengths.take j).sum : ℕ) : ℚ) := by
      rw [hfo]
      exact Nat.floor_le (sub_nonneg.mpr hge)
    have hfor2 : t - (((s.queueLengths.take j).sum : ℕ) : ℚ) < (o:ℚ) + 1 := by
      rw [hfo]
      exact Nat.lt_floor_add_one _
    have habs : |(((s.queueLengths.take j).sum + o : ℕ) : ℚ) - t| ≤
        ((s.queueLengths.getD j 0 : ℕ) : ℚ) := by
      have hgq : (1:ℚ) ≤ ((s.queueLengths.getD j 0 : ℕ) : ℚ) := by exact_mod_cast hg1
      rw [abs_le]
      constructor
      · push_cast
        push_cast at hlt
        have ho0 : (0:ℚ) ≤ (o:ℚ) := Nat.cast_nonneg o
        linarith
      · push_cast
        push_cast at hfor
        linarith
    constructor
    · refine ⟨j, hjq, ?_⟩
      rw [hprog, hpt]
      exact progress_abs_le _ _ _ _ htotq habs
    · intro k hk hklt
      have htk : t = (k:ℚ) := hk.symm
      have hSk : (s.queueLengths.take j).sum ≤ k := by
        rw [htk] at hge
        exact_mod_cast hge
      have hok : o = k - (s.queueLengths.take j).sum := by
        rw [hfo, htk, ← Nat.cast_sub hSk]
        exact Nat.floor_natCast _
      have hposk : (s.queueLengths.take j).sum + o = k := by omega
      rw [hprog, hposk, hpt, htk]
      ring
  | none =>
    have hnone := seekFind_none s.queueLengths t 0 (by simpa using ht0) hfind
    simp only [Nat.zero_add] at hnone
    have hteq : t = ((s.queueLengths.sum : ℕ) : ℚ) := by
      refine le_antisymm ?_ hnone
      rw [hT] at htle
      exact htle
    have hdest : seekDest s.queueLengths t = (s.queueLengths.length - 1, 0) := by
      unfold seekDest
      rw [hfind, if_pos ⟨le_of_eq hteq, hsum⟩]
    rw [hdest] at hprog
    dsimp only at hprog
    have hj1 : s.queueLengths.length - 1 < s.queueLengths.length := by omega
    have hdec := sum_take_succ_getD s.queueLengths (s.queueLengths.length - 1) hj1
    have hfull : (s.queueLengths.take (s.queueLengths.length - 1 + 1)).sum =
        s.queueLengths.sum := by
      rw [show s.queueLengths.length - 1 + 1 = s.queueLengths.length by omega,
        List.take_length]
    have hSg : (s.queueLengths.take (s.queueLengths.length - 1)).sum +
        s.queueLengths.getD (s.queueLengths.length - 1) 0 = s.queueLengths.sum := by
      omega
    constructor
    · refine ⟨s.queueLengths.length - 1, by omega, ?_⟩
      have habs : |(((s.queueLengths.take (s.queueLengths.length - 1)).sum + 0 : ℕ) : ℚ) - t| ≤
          ((s.queueLengths.getD (s.queueLengths.length - 1) 0 : ℕ) : ℚ) := by
        rw [hteq]
        have e1 : (((s.queueLengths.take (s.queueLengths.length - 1)).sum + 0 : ℕ) : ℚ) -
            ((s.queueLengths.sum : ℕ) : ℚ) =
            -((s.queueLengths.getD (s.queueLengths.length - 1) 0 : ℕ) : ℚ) := by
          rw [← hSg]
          push_cast
          ring
        rw [e1, abs_neg, abs_of_nonneg (Nat.cast_nonneg _)]
      rw [hprog, hpt]
      exact progress_abs_le _ _ _ _ htotq habs
    · intro k hk hklt
      exfalso
      have hkq : (k:ℚ) = t := by rw [htq]; exact hk
      have hkt : (k:ℚ) = ((s.totalLength : ℕ) : ℚ) := by
        rw [hkq, hteq, hT]
      have hk2 : k = s.totalLength := by exact_mod_cast hkt
      omega

/-- Witness for C7: `seek(30)` on the playing two-segment session; the
target character position is the integer 3, so progress is exactly 30. -/
theorem c7_witness :
    (∃ i, i < sPlay2.queue.length ∧
      |(seekOp sPlay2 30).1.state.progress - 30| ≤
        100 * ((sPlay2.queueLengths.getD i 0 : ℕ) : ℚ) / (sPlay2.totalLength : ℚ)) ∧
    (∀ k : ℕ, (k : ℚ) = 30 / 100 * (sPlay2.totalLength : ℚ) → k < sPlay2.totalLength →
      (seekOp sPlay2 30).1.state.progress = 30) :=
  c7_seek_roundtrip sPlay2 30 (by decide) (by decide) (by decide) (by decide)
    (by norm_num) (by norm_num)

/-- C7, counterexample to the claim as stated: on the two-segment session
(lengths 5 and 5, total 10), `p = 100` lands exactly on a segment boundary
- the target character position `100/100 * 10 = 10` equals the cumulative
sum of the first two segment lengths - yet the progress read immediately
after `seek(100)` is `50`, not `100`: no exact equality at this boundary. -/
theorem c7_counterexample :
    (100 : ℚ) / 100 * (sPlay2.totalLength : ℚ) =
      (((sPlay2.queueLengths.take 2).sum : ℕ) : ℚ) ∧
    (seekOp sPlay2 100).1.state.progress = 50 ∧
    ¬((seekOp sPlay2 100).1.state.progress = 100) := by
  refine ⟨by decide, by decide, by decide⟩

set_option maxRecDepth 100000 in
/-- C4, amended.  For 500-character punctuation-free strings whose
whitespace sits exactly at the 200-character split marks (here: spaces at
positions 199 and 399), segmentation produces exactly 3 segments of lengths
200, 200 and 100, each at most 200 characters, broken at those whitespace
positions.  This does not hold for every 500-character whitespace-containing
punctuation-free string: see the counterexample. -/
theorem c4_chunking :
    cex4good.length = 500 ∧
    cex4good.all (fun c => !(isTerminal c)) = true ∧
    cex4good.any isWs = true ∧
    (segmentText cex4good).map List.length = [200, 200, 100] ∧
    (segmentText cex4good).all (fun seg => Nat.ble seg.length 200) = true := by
  refine ⟨by decide, by decide, by decide, by decide, by decide⟩

set_option maxRecDepth 100000 in
/-- C4, counterexample to the claim as stated: `cex4bad` is a 500-character
string with whitespace and no sentence-terminal punctuation (spaces at
positions 200 and 400), yet segmentation produces segments of lengths
`[201, 200, 99]` - not `[200, 200, 100]`, and not all of them are at most
200 characters: the chunking regex `/.{1,200}(?:\s|$)/g` consumes the
whitespace it breaks at, so a run of 200 letters followed by a space
becomes a single 201-character segment. -/
theorem c4_counterexample :
    cex4bad.length = 500 ∧
    cex4bad.all (fun c => !(isTerminal c)) = true ∧
    cex4bad.any isWs = true ∧
    (segmentText cex4bad).map List.length = [201, 200, 99] ∧
    ¬((segmentText cex4bad).map List.length = [200, 200, 100]) ∧
    ¬((segmentText cex4bad).all (fun seg => Nat.ble seg.length 200) = true) := by
  refine ⟨by decide, by decide, by decide, by decide, by decide, by decide⟩

end Folio
